import Mathlib

/-!
Shallow embedding of `quote_hd5.py` (class `QuoteHD5`): an HD5 store of
per-market quote tables with three groups (`DAILY`, `MIN5`, `SPLITS`),
per-group and root `LAST_UPDATE` metadata, an order-checked append engine
(`_append_quote`), a whole-store sort (`sort_hd5`), a code extractor
(`extract`) and a missing-trading-day detector (`get_lostdate`).

Modelling conventions:
* Row times (`Time32Col`, seconds since the epoch) are `Nat`.
* The engine only ever reads the `time` column of a row; the remaining
  columns (open/high/low/close/vol/sum for quote rows, sd/ss/ssp/cd for
  split rows) are carried as one opaque `payload` field.
* `LAST_UPDATE` attributes hold either the empty string (modelled `none`)
  or a date string; the helpers `dtnum2str`/`dtstr2num` (imported from the
  external `tools` module) render a timestamp as a `%Y%m%d` date string
  and parse one back to the midnight timestamp, so a stored attribute is
  modelled as the midnight timestamp `dateOf t` of the written time, and
  reading it back (`dtstr2num(lupdate) if lupdate else 0`) is `getD 0`.
* A PyTables group holds named tables; it is modelled as an association
  list from table name to the table's row sequence, in creation order.
* Python exceptions that `quote_hd5.py` does not catch are modelled by
  `Option`/dedicated error constructors at the points where they can
  actually be raised by the modelled lines.
* Both market files (`data_sh.h5`, `data_sz.h5`) are assumed present and
  open, as in a normally constructed `QuoteHD5`.
-/

namespace QuoteHd5Model

/-- One table row.  Both `DescQuote` and `DescSPLITS` rows begin with a
`time` column (seconds since 1970-01-01); the engine reads only `time`,
so the remaining columns are one opaque `payload`. -/
structure Row where
  time : Nat
  payload : Nat
deriving DecidableEq, Repr

/-- Python `str.upper()` applied to a code: uppercase every character.
Stated directly on the underlying character list so that it evaluates by
kernel reduction. -/
def strUpper (s : String) : String := ⟨s.data.map Char.toUpper⟩

/-- Midnight timestamp of the calendar day containing `t`: the round trip
`dtstr2num (dtnum2str t)` through a `%Y%m%d` date string floors `t` to
its day. -/
def dateOf (t : Nat) : Nat := t / 86400 * 86400

/-- The two markets of `MARKETS = ['SH', 'SZ']`, each owning one file. -/
inductive Market where
  | SH
  | SZ
deriving DecidableEq, Repr

/-- Membership test `mk in MARKETS` together with the `self._hd5fp[mk]`
dictionary lookup: a two-letter tag resolves to its market, or to `none`
when the prefix is undefined. -/
def marketOf (s : String) : Option Market :=
  if s = "SH" then some Market.SH
  else if s = "SZ" then some Market.SZ
  else none

/-- The index code of each market, `MK_INDEX = {'SH': 'SH000001', 'SZ': 'SZ399001'}`. -/
def MK_INDEX : Market → String
  | Market.SH => "SH000001"
  | Market.SZ => "SZ399001"

/-- The value view `MK_INDEX.values()` used by the membership test on
line 262 of the source. -/
def indexCodes : List String := ["SH000001", "SZ399001"]

/-- The three data kinds `TYPE_HD5 = ['DAILY', 'MIN5', 'SPLITS']`. -/
inductive DataType where
  | DAILY
  | MIN5
  | SPLITS
deriving DecidableEq, Repr

/-- One table group of an HD5 file: its `LAST_UPDATE` attribute (empty
string modelled as `none`, a date string as the corresponding midnight
timestamp) and its named tables in creation order. -/
structure GroupState where
  lastUpdate : Option Nat
  tables : List (String × List Row)
deriving DecidableEq, Repr

/-- One market file `data_xx.h5`: the root `LAST_UPDATE` attribute and
the three groups `/DAILY`, `/MIN5`, `/SPLITS`. -/
structure MarketFile where
  lastUpdate : Option Nat
  daily : GroupState
  min5 : GroupState
  splits : GroupState
deriving DecidableEq, Repr

/-- The open store `QuoteHD5`: one file per market. -/
structure QuoteHD5 where
  sh : MarketFile
  sz : MarketFile
deriving DecidableEq, Repr

def QuoteHD5.file (st : QuoteHD5) : Market → MarketFile
  | Market.SH => st.sh
  | Market.SZ => st.sz

def QuoteHD5.setFile (st : QuoteHD5) (m : Market) (f : MarketFile) : QuoteHD5 :=
  match m with
  | Market.SH => { st with sh := f }
  | Market.SZ => { st with sz := f }

/-- Group lookup `fp.getNode(TYPE2GRP[data_type])`. -/
def MarketFile.group (f : MarketFile) : DataType → GroupState
  | DataType.DAILY => f.daily
  | DataType.MIN5 => f.min5
  | DataType.SPLITS => f.splits

def MarketFile.setGroup (f : MarketFile) (dty : DataType) (g : GroupState) : MarketFile :=
  match dty with
  | DataType.DAILY => { f with daily := g }
  | DataType.MIN5 => { f with min5 := g }
  | DataType.SPLITS => { f with splits := g }

/-- Table lookup `fp.getNode(group, name=code)`: the rows of the named
table, or `none` when PyTables raises `NoSuchNodeError`. -/
def GroupState.getTable (g : GroupState) (code : String) : Option (List Row) :=
  (g.tables.find? (fun p => p.1 == code)).map (fun p => p.2)

/-- The get-or-create-then-append step of `_append_quote` (lines 248-258):
append `rows` to the named table, creating the table first when it does
not exist (`createTable` adds a fresh node to the group). -/
def GroupState.appendTable (g : GroupState) (code : String) (rows : List Row) : GroupState :=
  if (g.tables.find? (fun p => p.1 == code)).isSome then
    { g with tables := g.tables.map (fun p => if p.1 == code then (p.1, p.2 ++ rows) else p) }
  else
    { g with tables := g.tables ++ [(code, rows)] }

/-- Table copy `src_tbl.copy(dst_grp, name, overwrite=True)` as seen from
the destination group: the named table now holds exactly `rows`. -/
def GroupState.putTable (g : GroupState) (code : String) (rows : List Row) : GroupState :=
  if (g.tables.find? (fun p => p.1 == code)).isSome then
    { g with tables := g.tables.map (fun p => if p.1 == code then (p.1, rows) else p) }
  else
    { g with tables := g.tables ++ [(code, rows)] }

/-- The running tally `count = [0, 0]` of `_append_quote`: codes seen and
codes actually appended. -/
structure AppendCount where
  total : Nat
  appended : Nat
deriving DecidableEq, Repr

/-- One iteration of the per-code loop of `QuoteHD5._append_quote`
(lines 225-265), processing a single `(code, data)` pair of the data
source.  Returns the updated store and tally, or `none` when the Python
raises: the only uncaught exception on these lines is the `IndexError`
from `rows[-1]` when `code` is an index code and the kept set is empty
(reachable only with `checkorder = False` and empty input). -/
def appendOne (st : QuoteHD5) (dty : DataType) (code0 : String) (data : List Row)
    (checkorder : Bool) (cnt : AppendCount) : Option (QuoteHD5 × AppendCount) :=
  let cnt1 : AppendCount := ⟨cnt.total + 1, cnt.appended⟩
  let code := strUpper code0
  let mk := code.take 2
  match marketOf mk with
  | none => some (st, cnt1)
  | some m =>
    let fp := st.file m
    let grp := fp.group dty
    let start := grp.lastUpdate.getD 0
    let rows := if checkorder then data.filter (fun r => decide (start ≤ r.time)) else data
    if checkorder && rows.isEmpty then
      some (st, cnt1)
    else
      let grp1 := grp.appendTable code rows
      let cnt2 : AppendCount := ⟨cnt1.total, cnt1.appended + 1⟩
      if code ∈ indexCodes then
        match rows.getLast? with
        | none => none
        | some lastRow =>
          let d := dateOf lastRow.time
          let fp1 := fp.setGroup dty { grp1 with lastUpdate := some d }
          some (st.setFile m { fp1 with lastUpdate := some d }, cnt2)
      else
        some (st.setFile m (fp.setGroup dty grp1), cnt2)

/-- The full per-code loop of `_append_quote` over the data source. -/
def appendLoop (st : QuoteHD5) (dty : DataType) (src : List (String × List Row))
    (checkorder : Bool) (cnt : AppendCount) : Option (QuoteHD5 × AppendCount) :=
  match src with
  | [] => some (st, cnt)
  | (c, d) :: rest =>
    match appendOne st dty c d checkorder cnt with
    | none => none
    | some (st1, cnt1) => appendLoop st1 dty rest checkorder cnt1

/-- The end-of-batch refresh of `_append_quote` (lines 267-270): set the
`SPLITS` group `LAST_UPDATE` of every market to the current calendar
date (`dt.date.today()` rendered `%Y%m%d`, passed here as the date
number `today`). -/
def refreshSplits (st : QuoteHD5) (today : Nat) : QuoteHD5 :=
  { sh := { st.sh with splits := { st.sh.splits with lastUpdate := some today } },
    sz := { st.sz with splits := { st.sz.splits with lastUpdate := some today } } }

/-- `QuoteHD5._append_quote(data_type, data_source, checkorder)`: process
every `(code, data)` pair, then, for the `SPLITS` kind only, refresh the
splits metadata of every market to the current date `today`. -/
def appendQuote (st : QuoteHD5) (dty : DataType) (src : List (String × List Row))
    (checkorder : Bool) (today : Nat) : Option (QuoteHD5 × AppendCount) :=
  (appendLoop st dty src checkorder ⟨0, 0⟩).map
    (fun p => (if dty = DataType.SPLITS then refreshSplits p.1 today else p.1, p.2))

/-- A fresh destination file as produced by `QuoteHD5.create_hd5`: empty
root metadata and three empty groups with empty metadata. -/
def create_hd5 : MarketFile :=
  { lastUpdate := none,
    daily := { lastUpdate := none, tables := [] },
    min5 := { lastUpdate := none, tables := [] },
    splits := { lastUpdate := none, tables := [] } }

/-- The iteration order of `TYPE2GRP.values()` in the extract loop. -/
def copyKinds : List DataType := [DataType.DAILY, DataType.MIN5, DataType.SPLITS]

/-- The inner group loop of `QuoteHD5.extract` for one valid code: try to
copy the source table of `code` for each kind into the destination,
counting each successful copy (`count[1] += 1` per copy); a missing
source table (`NoSuchNodeError`) is skipped. -/
def extractCopy (src : MarketFile) (dst : MarketFile) (code : String)
    (copies : Nat) : MarketFile × Nat :=
  copyKinds.foldl
    (fun acc k =>
      match (src.group k).getTable code with
      | none => acc
      | some rows => (acc.1.setGroup k ((acc.1.group k).putTable code rows), acc.2 + 1))
    (dst, copies)

/-- The per-code body of `QuoteHD5.extract` (lines 350-370): uppercase,
skip codes with an undefined market prefix or a length other than 8
without counting them, otherwise count the attempt and run the group
copy loop. -/
def extractOne (st : QuoteHD5) (dst : MarketFile) (code0 : String)
    (cnt : Nat × Nat) : MarketFile × (Nat × Nat) :=
  let code := strUpper code0
  match marketOf (code.take 2) with
  | none => (dst, cnt)
  | some m =>
    if code.length ≠ 8 then (dst, cnt)
    else
      let r := extractCopy (st.file m) dst code cnt.2
      (r.1, (cnt.1 + 1, r.2))

/-- The code loop of `extract` over the requested list. -/
def extractLoop (st : QuoteHD5) (dst : MarketFile) (codes : List String)
    (cnt : Nat × Nat) : MarketFile × (Nat × Nat) :=
  match codes with
  | [] => (dst, cnt)
  | c :: rest =>
    let r := extractOne st dst c cnt
    extractLoop st r.1 rest r.2

/-- `QuoteHD5.extract(code_lst, fn)`: with an empty code list, return
early without creating a destination (`none`); otherwise create a fresh
destination file, copy every valid requested code groupwise, and report
the final destination together with the tally `(count[0], count[1])` =
(valid codes attempted, successful table copies). -/
def extract (st : QuoteHD5) (codeLst : List String) : Option (MarketFile × (Nat × Nat)) :=
  if codeLst.length < 1 then none
  else some (extractLoop st create_hd5 codeLst (0, 0))

/-- The comparison `rows.sort(order='time')` actually uses: numpy
compares the named `time` field first, but the fields left unspecified
by `order` still break ties, in dtype order — here the opaque `payload`
standing for the remaining columns.  The key therefore covers the whole
record. -/
def rowLe (a b : Row) : Prop :=
  a.time < b.time ∨ (a.time = b.time ∧ a.payload ≤ b.payload)

instance rowLe.decidableRel : DecidableRel rowLe := fun a b =>
  inferInstanceAs (Decidable (a.time < b.time ∨ (a.time = b.time ∧ a.payload ≤ b.payload)))

/-- The in-memory sort `rows.sort(order='time')` of `sort_hd5`: sort the
row array by `rowLe` — time first, remaining fields as tie-breakers.
Because the comparison key determines the record completely, rows that
compare equal are byte-identical, every sorted permutation of the array
coincides, and the instability of the underlying quicksort is
unobservable; the model therefore uses an insertion sort by the same
key. -/
def sortRows (rows : List Row) : List Row :=
  rows.insertionSort rowLe

/-- The write-back `node.modifyRows(start=0, stop=-1, rows=rows)` of
`sort_hd5`: with PyTables slice semantics, `stop = -1` resolves to
`nrows - 1`, so only the first `nrows - 1` sorted rows are written back
and the table keeps its old final row. -/
def modifyRowsSorted (rows : List Row) : List Row :=
  (sortRows rows).take (rows.length - 1) ++ rows.drop (rows.length - 1)

/-- `sort_hd5` applied to one group: every table node is read, sorted by
time and written back. -/
def sortGroup (g : GroupState) : GroupState :=
  { g with tables := g.tables.map (fun p => (p.1, modifyRowsSorted p.2)) }

/-- `sort_hd5` applied to one market file (`fp.walkNodes()` reaches every
table of every group). -/
def sortFile (f : MarketFile) : MarketFile :=
  { f with daily := sortGroup f.daily, min5 := sortGroup f.min5, splits := sortGroup f.splits }

/-- `QuoteHD5.sort_hd5()`: rewrite every table of every market file in
ascending time order. -/
def sort_hd5 (st : QuoteHD5) : QuoteHD5 :=
  { sh := sortFile st.sh, sz := sortFile st.sz }

/-- Outcome of `QuoteHD5.get_lostdate`.  `keyError` models the uncaught
`KeyError` from `self._hd5fp[mk]` on an undefined market prefix.
`valueError` models the missing-table path: the handler that catches
`NoSuchNodeError` first evaluates
`log.debug('code % not available in DB' %code)` (line 198), and the
format string's `% n` — space is a conversion flag, `n` is not a valid
conversion type — makes the `%` operator raise
`ValueError: unsupported format character` eagerly, regardless of log
level, so the `return None` on the next line is unreachable.
`indexError` models the uncaught `IndexError` from `tbl[0]` on an empty
table. -/
inductive GapResult where
  | keyError
  | valueError
  | indexError
  | lost (dates : List Nat)
deriving DecidableEq, Repr

/-- `QuoteHD5.get_lostdate(code)`: check the `MIN5` group for the missing
trading days of `code` (default: the SH index code).  `workingDays` is
the external trading-calendar collaborator `get_workingdays`, taking the
first and last recorded dates and returning the expected trading dates
in calendar order; dates are date numbers as produced by `dtnum2str`. -/
def get_lostdate (st : QuoteHD5) (workingDays : Nat → Nat → List Nat)
    (codeArg : Option String) : GapResult :=
  let code := match codeArg with
    | none => MK_INDEX Market.SH
    | some c => strUpper c
  let mk := code.take 2
  match marketOf mk with
  | none => GapResult.keyError
  | some m =>
    match ((st.file m).group DataType.MIN5).getTable code with
    | none => GapResult.valueError
    | some rows =>
      match rows with
      | [] => GapResult.indexError
      | r0 :: rest =>
        let recDays := rows.map (fun r => dateOf r.time)
        let lastRow := rest.getLast?.getD r0
        let wDays := workingDays (dateOf r0.time) (dateOf lastRow.time)
        GapResult.lost (wDays.filter (fun d => decide (d ∉ recDays)))

/-! ### Derived definitions used to state the claims -/

/-- The kept set `rows` computed by `_append_quote` for one code: the
order filter under `checkorder = True`, the raw input otherwise. -/
def keptRows (st : QuoteHD5) (dty : DataType) (m : Market) (data : List Row)
    (checkorder : Bool) : List Row :=
  if checkorder then
    data.filter (fun r => decide ((((st.file m).group dty).lastUpdate.getD 0) ≤ r.time))
  else data

/-- Equality of all `LAST_UPDATE` metadata (root and per-group, every
market) between two stores. -/
def metaEq (a b : QuoteHD5) : Prop :=
  (∀ m : Market, (a.file m).lastUpdate = (b.file m).lastUpdate)
  ∧ (∀ m : Market, ∀ k : DataType,
      ((a.file m).group k).lastUpdate = ((b.file m).group k).lastUpdate)

/-- The validity test of the extract loop, phrased as a predicate: the
uppercased code has a recognized market tag and length 8. -/
def validExtractCode (code : String) : Bool :=
  (marketOf ((strUpper code).take 2)).isSome && (strUpper code).length == 8

/-- Number of groups of the source store holding a table for `code`:
the number of `(code, group)` copies the extract loop performs for a
valid `code`. -/
def copiesFor (st : QuoteHD5) (code : String) : Nat :=
  match marketOf ((strUpper code).take 2) with
  | none => 0
  | some m =>
    (copyKinds.filter (fun k => (((st.file m).group k).getTable (strUpper code)).isSome)).length

/-! ### Concrete stores and batches used by witnesses and counterexamples -/

/-- A store with two freshly created, empty market files. -/
def stEmpty : QuoteHD5 := { sh := create_hd5, sz := create_hd5 }

/-- Concrete store for the Scenario B witness: the SH `DAILY` group has
cutoff 200 and no tables yet. -/
def stCut200 : QuoteHD5 :=
  { sh := { create_hd5 with daily := { lastUpdate := some 200, tables := [] } },
    sz := create_hd5 }

/-- Scenario B input rows at times 100, 200, 300, 400. -/
def rowsB : List Row := [⟨100, 0⟩, ⟨200, 0⟩, ⟨300, 0⟩, ⟨400, 0⟩]

/-- Concrete store whose SH file holds a `SH600000` table in both the
`DAILY` and `MIN5` groups. -/
def stC3 : QuoteHD5 :=
  { sh := { create_hd5 with
      daily := { lastUpdate := none, tables := [("SH600000", [⟨5, 0⟩])] },
      min5 := { lastUpdate := none, tables := [("SH600000", [⟨6, 0⟩])] } },
    sz := create_hd5 }

/-- Concrete store whose SH `DAILY` cutoff is ten days (864000 seconds),
used to show the watermark moving backwards. -/
def stHigh : QuoteHD5 :=
  { sh := { create_hd5 with daily := { lastUpdate := some 864000, tables := [] } },
    sz := create_hd5 }

/-- Concrete store with a `MIN5` table for the SH index code that is
sorted by the full sort key (time, then the remaining columns), with a
duplicated time value. -/
def stSorted : QuoteHD5 :=
  { sh := { create_hd5 with
      min5 := { lastUpdate := none,
                tables := [("SH000001", [⟨0, 1⟩, ⟨100, 2⟩, ⟨100, 3⟩, ⟨86400, 4⟩])] } },
    sz := create_hd5 }

/-- Concrete store with a `DAILY` table that is non-decreasing in time
but whose two equal-time rows have their remaining columns out of dtype
order. -/
def stTieBreak : QuoteHD5 :=
  { sh := { create_hd5 with
      daily := { lastUpdate := none, tables := [("SH600000", [⟨100, 5⟩, ⟨100, 3⟩])] } },
    sz := create_hd5 }

/-! ### Helper lemmas about the store operations -/

theorem file_setFile (st : QuoteHD5) (m : Market) (f : MarketFile) (m' : Market) :
    (st.setFile m f).file m' = if m' = m then f else st.file m' := by
  cases st
  cases m <;> cases m' <;> simp [QuoteHD5.setFile, QuoteHD5.file]

theorem group_setGroup (f : MarketFile) (dty : DataType) (g : GroupState) (dty' : DataType) :
    (f.setGroup dty g).group dty' = if dty' = dty then g else f.group dty' := by
  cases f
  cases dty <;> cases dty' <;> simp [MarketFile.setGroup, MarketFile.group]

theorem find?_mapSame (upd : List Row → List Row) (code : String) :
    ∀ l : List (String × List Row),
      (l.map fun p => if p.1 == code then (p.1, upd p.2) else p).find? (fun p => p.1 == code)
        = (l.find? fun p => p.1 == code).map fun p => (p.1, upd p.2)
  | [] => rfl
  | a :: l => by
    by_cases h : a.1 = code
    · simp [h, List.find?]
    · have hb : (a.1 == code) = false := by simp [h]
      simp only [List.map, List.find?, hb, if_neg, Bool.false_eq_true, not_false_eq_true]
      simpa [hb] using find?_mapSame upd code l

theorem group_setLastUpdate (f : MarketFile) (d : Option Nat) (dty : DataType) :
    ({ f with lastUpdate := d } : MarketFile).group dty = f.group dty := by
  cases dty <;> rfl

theorem getTable_setLastUpdate (g : GroupState) (d : Option Nat) (code : String) :
    ({ g with lastUpdate := d } : GroupState).getTable code = g.getTable code := rfl

theorem find?_map_upd (upd : List Row → List Row) (code code' : String)
    (l : List (String × List Row)) :
    (l.map fun p => if p.1 == code then (p.1, upd p.2) else p).find? (fun p => p.1 == code')
      = (l.find? (fun p => p.1 == code')).map
          (fun p => if p.1 == code then (p.1, upd p.2) else p) := by
  have hfun : ((fun p : String × List Row => p.1 == code')
        ∘ fun p : String × List Row => if p.1 == code then (p.1, upd p.2) else p)
      = fun p : String × List Row => p.1 == code' := by
    funext p
    simp only [Function.comp]
    split <;> rfl
  rw [List.find?_map, hfun]

theorem getTable_appendTable (g : GroupState) (code : String) (rows : List Row) :
    (g.appendTable code rows).getTable code
      = some (((g.getTable code).getD []) ++ rows) := by
  cases hf : g.tables.find? (fun p => p.1 == code) with
  | none =>
    simp [GroupState.appendTable, GroupState.getTable, hf, List.find?]
  | some q =>
    have hq := List.find?_some hf
    simp only [] at hq
    simp only [GroupState.appendTable, GroupState.getTable, hf, Option.isSome_some, if_true]
    rw [find?_map_upd (fun v => v ++ rows) code code g.tables, hf]
    simp [beq_iff_eq.mp hq]

theorem getTable_other_appendTable (g : GroupState) (code : String) (rows : List Row)
    (code' : String) (h : code' ≠ code) :
    (g.appendTable code rows).getTable code' = g.getTable code' := by
  have hbe : (code == code') = false := by
    simp only [beq_eq_false_iff_ne]
    exact fun hc => h hc.symm
  cases hf : g.tables.find? (fun p => p.1 == code) with
  | none =>
    simp [GroupState.appendTable, GroupState.getTable, hf, List.find?, hbe]
  | some q =>
    simp only [GroupState.appendTable, GroupState.getTable, hf, Option.isSome_some, if_true]
    rw [find?_map_upd (fun v => v ++ rows) code code' g.tables]
    cases hf' : g.tables.find? (fun p => p.1 == code') with
    | none => rfl
    | some q' =>
      have hq' := List.find?_some hf'
      simp only [] at hq'
      have e : q'.1 = code' := beq_iff_eq.mp hq'
      have hne : (q'.1 == code) = false := by
        simp only [beq_eq_false_iff_ne]
        intro hc
        exact h (by rw [← e, hc])
      simp [hne, e, h]

/-! ### C1: order-checked append keeps exactly the rows at or after the cutoff -/

/-- C1.  For an append-with-order-checking of `data` under a code whose
market tag is recognized, the rows written for that code are exactly the
input rows whose time is at least the group cutoff (the group
`LAST_UPDATE`, treated as `0` when absent), boundary inclusive: the
code's table afterwards is its previous contents followed by exactly
that filtered subsequence. -/
theorem C1_append_keeps_rows_at_or_after_cutoff
    (st : QuoteHD5) (dty : DataType) (code0 : String) (data : List Row)
    (cnt : AppendCount) (m : Market)
    (hm : marketOf ((strUpper code0).take 2) = some m) :
    (appendOne st dty code0 data true cnt).map
        (fun p => (((p.1.file m).group dty).getTable (strUpper code0)).getD [])
      = some ((((st.file m).group dty).getTable (strUpper code0)).getD []
          ++ data.filter
            (fun r => decide ((((st.file m).group dty).lastUpdate.getD 0) ≤ r.time))) := by
  simp only [appendOne]
  rw [hm]
  simp only [Bool.true_and, if_true]
  by_cases hemp : (data.filter
      (fun r => decide ((((st.file m).group dty).lastUpdate.getD 0) ≤ r.time))).isEmpty
  · rw [if_pos hemp]
    have hnil := List.isEmpty_iff.mp hemp
    rw [hnil]
    simp
  · rw [if_neg hemp]
    have hne : data.filter
        (fun r => decide ((((st.file m).group dty).lastUpdate.getD 0) ≤ r.time)) ≠ [] :=
      fun h => hemp (by simp [h])
    by_cases hidx : strUpper code0 ∈ indexCodes
    · rw [if_pos hidx]
      cases hlast : (data.filter
          (fun r => decide ((((st.file m).group dty).lastUpdate.getD 0) ≤ r.time))).getLast? with
      | none => exact absurd (List.getLast?_eq_none_iff.mp hlast) hne
      | some lastRow =>
        simp [file_setFile, group_setLastUpdate, group_setGroup, getTable_setLastUpdate,
          getTable_appendTable]
    · rw [if_neg hidx]
      simp [file_setFile, group_setGroup, getTable_appendTable]

/-- Witness for C1 (Scenario B): appending `rowsB` against cutoff 200
keeps exactly the rows at times 200, 300, 400 (boundary inclusive). -/
theorem C1_witness :
    (appendOne stCut200 DataType.DAILY "SH600000" rowsB true ⟨0, 0⟩).map
        (fun p => (((p.1.file Market.SH).group DataType.DAILY).getTable
          (strUpper "SH600000")).getD [])
      = some [⟨200, 0⟩, ⟨300, 0⟩, ⟨400, 0⟩] := by
  have h := C1_append_keeps_rows_at_or_after_cutoff stCut200 DataType.DAILY "SH600000" rowsB
    ⟨0, 0⟩ Market.SH (by decide)
  exact h.trans (by decide)

theorem lastUpdate_appendTable (g : GroupState) (code : String) (rows : List Row) :
    (g.appendTable code rows).lastUpdate = g.lastUpdate := by
  unfold GroupState.appendTable
  split <;> rfl

theorem lastUpdate_setGroup (f : MarketFile) (dty : DataType) (g : GroupState) :
    (f.setGroup dty g).lastUpdate = f.lastUpdate := by
  cases dty <;> rfl

theorem dateOf_le (t : Nat) : dateOf t ≤ t :=
  Nat.div_mul_le_self t 86400

theorem index_code_market (code : String) (m : Market)
    (hm : marketOf (code.take 2) = some m) (hidx : code ∈ indexCodes) :
    code = MK_INDEX m := by
  have hcases : code = "SH000001" ∨ code = "SZ399001" := by
    simpa [indexCodes] using hidx
  rcases hcases with rfl | rfl
  · have h2 : marketOf ("SH000001".take 2) = some Market.SH := by decide
    rw [h2] at hm
    cases hm
    rfl
  · have h2 : marketOf ("SZ399001".take 2) = some Market.SZ := by decide
    rw [h2] at hm
    cases hm
    rfl

theorem mk_index_mem (m : Market) : MK_INDEX m ∈ indexCodes := by
  cases m <;> decide

/-- Exhaustive case analysis of a completed `appendOne` call that did
append (`count[1]` incremented): the kept set, the final tally, and the
two possible result stores (index code: table appended and both
metadata set to the date of the last kept row; otherwise: table
appended, metadata untouched). -/
theorem appendOne_inv (st : QuoteHD5) (dty : DataType) (code0 : String) (data : List Row)
    (checkorder : Bool) (cnt : AppendCount) (m : Market) (st1 : QuoteHD5) (cnt1 : AppendCount)
    (hm : marketOf ((strUpper code0).take 2) = some m)
    (h : appendOne st dty code0 data checkorder cnt = some (st1, cnt1))
    (hw : cnt1.appended = cnt.appended + 1) :
    (checkorder = true → keptRows st dty m data checkorder ≠ [])
    ∧ cnt1 = ⟨cnt.total + 1, cnt.appended + 1⟩
    ∧ ((∃ lastRow,
          (keptRows st dty m data checkorder).getLast? = some lastRow
          ∧ strUpper code0 ∈ indexCodes
          ∧ st1 = st.setFile m
              { (st.file m).setGroup dty
                  { ((st.file m).group dty).appendTable (strUpper code0)
                      (keptRows st dty m data checkorder)
                    with lastUpdate := some (dateOf lastRow.time) }
                with lastUpdate := some (dateOf lastRow.time) })
      ∨ (strUpper code0 ∉ indexCodes
          ∧ st1 = st.setFile m ((st.file m).setGroup dty
              (((st.file m).group dty).appendTable (strUpper code0)
                (keptRows st dty m data checkorder))))) := by
  simp only [appendOne] at h
  rw [hm] at h
  cases checkorder with
  | false =>
    simp only [Bool.false_and, Bool.false_eq_true, if_false] at h
    by_cases hidx : strUpper code0 ∈ indexCodes
    · rw [if_pos hidx] at h
      cases hlast : data.getLast? with
      | none => rw [hlast] at h; simp at h
      | some lastRow =>
        rw [hlast] at h
        simp only [Option.some.injEq, Prod.mk.injEq] at h
        refine ⟨by simp, ?_, Or.inl ⟨lastRow, ?_, hidx, ?_⟩⟩
        · exact h.2.symm
        · simpa [keptRows] using hlast
        · simp only [keptRows, if_neg (by simp : ¬False)]
          exact h.1.symm
    · rw [if_neg hidx] at h
      simp only [Option.some.injEq, Prod.mk.injEq] at h
      refine ⟨by simp, ?_, Or.inr ⟨hidx, ?_⟩⟩
      · exact h.2.symm
      · simp only [keptRows, if_neg (by simp : ¬False)]
        exact h.1.symm
  | true =>
    simp only [Bool.true_and, if_true] at h
    by_cases hemp : (data.filter
        (fun r => decide ((((st.file m).group dty).lastUpdate.getD 0) ≤ r.time))).isEmpty
    · rw [if_pos hemp] at h
      simp only [Option.some.injEq, Prod.mk.injEq] at h
      have := h.2
      rw [← this] at hw
      simp at hw
    · rw [if_neg hemp] at h
      have hne : keptRows st dty m data true ≠ [] := by
        intro hc
        apply hemp
        rw [List.isEmpty_iff]
        simpa [keptRows] using hc
      by_cases hidx : strUpper code0 ∈ indexCodes
      · rw [if_pos hidx] at h
        cases hlast : (data.filter
            (fun r => decide ((((st.file m).group dty).lastUpdate.getD 0) ≤ r.time))).getLast? with
        | none => rw [hlast] at h; simp at h
        | some lastRow =>
          rw [hlast] at h
          simp only [Option.some.injEq, Prod.mk.injEq] at h
          refine ⟨fun _ => hne, ?_, Or.inl ⟨lastRow, ?_, hidx, ?_⟩⟩
          · exact h.2.symm
          · simpa [keptRows] using hlast
          · simp only [keptRows, if_pos rfl]
            exact h.1.symm
      · rw [if_neg hidx] at h
        simp only [Option.some.injEq, Prod.mk.injEq] at h
        refine ⟨fun _ => hne, ?_, Or.inr ⟨hidx, ?_⟩⟩
        · exact h.2.symm
        · simp only [keptRows, if_pos rfl]
          exact h.1.symm

/-! ### C6: an empty-after-filter batch is skipped without any effect -/

/-- C6.  Under order checking, when no input row reaches the group
cutoff the code is skipped entirely: the store is returned unchanged (no
table touched or created, no metadata changed) and the tally counts the
code as processed (`count[0]`) but not appended (`count[1]`). -/
theorem C6_empty_filter_skips_code
    (st : QuoteHD5) (dty : DataType) (code0 : String) (data : List Row)
    (cnt : AppendCount) (m : Market)
    (hm : marketOf ((strUpper code0).take 2) = some m)
    (hemp : data.filter
        (fun r => decide ((((st.file m).group dty).lastUpdate.getD 0) ≤ r.time)) = []) :
    appendOne st dty code0 data true cnt = some (st, ⟨cnt.total + 1, cnt.appended⟩) := by
  simp only [appendOne]
  rw [hm]
  simp only [Bool.true_and, if_true]
  rw [hemp]
  simp

/-- Witness for C6: against cutoff 200 a batch with a single row at time
100 filters to nothing; the store is untouched and only the processed
counter advances. -/
theorem C6_witness :
    appendOne stCut200 DataType.DAILY "SH600000" [⟨100, 0⟩] true ⟨3, 1⟩
      = some (stCut200, ⟨4, 1⟩) :=
  C6_empty_filter_skips_code stCut200 DataType.DAILY "SH600000" [⟨100, 0⟩] ⟨3, 1⟩
    Market.SH (by decide) (by decide)

/-! ### C8: invalid-code handling in the append engine -/

/-- Counterexample to C8 as stated: the code `"SH1"` has length 3, not
the schema width 8, yet the append engine does not skip it — the call
appends it (tally `(1, 1)`) and creates a table `SH1` holding the row.
Only the market-tag check exists on lines 226-231; the length check is
performed by `extract` alone. -/
theorem C8_counterexample :
    ("SH1".length ≠ 8)
    ∧ (appendOne stEmpty DataType.DAILY "SH1" [⟨100, 0⟩] true ⟨0, 0⟩).map
        (fun p => (p.2, ((p.1.file Market.SH).group DataType.DAILY).getTable "SH1"))
      = some (⟨1, 1⟩, some [⟨100, 0⟩]) :=
  ⟨by decide, by decide⟩

/-- C8 amended.  For every batch item whose code, after uppercasing, has
an unrecognized market tag, the append engine skips the code without
raising: the store is unchanged, nothing is written, and the code is
counted as seen but not appended, so the failure is not fatal to the
rest of the batch.  (The engine performs no length check; a wrong-length
code with a recognized tag is appended normally.) -/
theorem C8_amended_unknown_tag_skipped
    (st : QuoteHD5) (dty : DataType) (code0 : String) (data : List Row)
    (checkorder : Bool) (cnt : AppendCount)
    (hm : marketOf ((strUpper code0).take 2) = none) :
    appendOne st dty code0 data checkorder cnt = some (st, ⟨cnt.total + 1, cnt.appended⟩) := by
  simp only [appendOne]
  rw [hm]

/-- Witness for the amended C8: the unknown-tag code `"XX123456"` is
skipped; the store is unchanged and only the processed counter moves. -/
theorem C8_amended_witness :
    appendOne stEmpty DataType.MIN5 "XX123456" [⟨100, 0⟩] true ⟨0, 0⟩
      = some (stEmpty, ⟨1, 0⟩) :=
  C8_amended_unknown_tag_skipped stEmpty DataType.MIN5 "XX123456" [⟨100, 0⟩] true ⟨0, 0⟩
    (by decide)

/-! ### C7: the splits end-of-batch refresh -/

/-- C7.  Every completed `_append_quote` call for the `SPLITS` kind ends
by setting the `SPLITS` group metadata of every market to the current
calendar date — independently of the batch contents (also for an empty
batch, and on repeated same-day calls). -/
theorem C7_splits_meta_refreshed_to_today
    (st : QuoteHD5) (src : List (String × List Row)) (checkorder : Bool) (today : Nat)
    (st' : QuoteHD5) (cnt : AppendCount)
    (h : appendQuote st DataType.SPLITS src checkorder today = some (st', cnt)) :
    ∀ m : Market, ((st'.file m).group DataType.SPLITS).lastUpdate = some today := by
  unfold appendQuote at h
  cases hl : appendLoop st DataType.SPLITS src checkorder ⟨0, 0⟩ with
  | none => rw [hl] at h; simp at h
  | some p =>
    rw [hl] at h
    simp at h
    have hst : refreshSplits p.1 today = st' := h.1
    intro m
    rw [← hst]
    cases m <;> rfl

/-- Witness for C7 (Scenario D): two consecutive same-day `SPLITS`
append calls with an empty batch both leave every market's splits
metadata at the current date. -/
theorem C7_witness :
    ∃ st1 cnt1 st2 cnt2,
      appendQuote stEmpty DataType.SPLITS [] true 7 = some (st1, cnt1)
      ∧ appendQuote st1 DataType.SPLITS [] true 7 = some (st2, cnt2)
      ∧ (∀ m : Market, ((st1.file m).group DataType.SPLITS).lastUpdate = some 7)
      ∧ (∀ m : Market, ((st2.file m).group DataType.SPLITS).lastUpdate = some 7) := by
  refine ⟨refreshSplits stEmpty 7, ⟨0, 0⟩, refreshSplits (refreshSplits stEmpty 7) 7, ⟨0, 0⟩,
    rfl, rfl, ?_, ?_⟩
  · exact C7_splits_meta_refreshed_to_today stEmpty [] true 7 _ _ rfl
  · exact C7_splits_meta_refreshed_to_today (refreshSplits stEmpty 7) [] true 7 _ _ rfl

/-! ### C10: unordered appends can move the watermark backwards -/

/-- C10.  With `checkorder = False` and a non-empty batch for a market's
index code, a successful append sets the group and root `LAST_UPDATE` to
the date of the last input row even when that date lies strictly below
the current watermark: the watermark is not monotone under unordered
appends. -/
theorem C10_unordered_append_rewinds_watermark
    (st : QuoteHD5) (dty : DataType) (code0 : String) (data : List Row)
    (cnt : AppendCount) (m : Market) (lastRow : Row)
    (hm : marketOf ((strUpper code0).take 2) = some m)
    (hidx : strUpper code0 = MK_INDEX m)
    (hlast : data.getLast? = some lastRow)
    (hlt : dateOf lastRow.time < ((st.file m).group dty).lastUpdate.getD 0) :
    ∃ st', appendOne st dty code0 data false cnt
        = some (st', ⟨cnt.total + 1, cnt.appended + 1⟩)
      ∧ ((st'.file m).group dty).lastUpdate = some (dateOf lastRow.time)
      ∧ (st'.file m).lastUpdate = some (dateOf lastRow.time)
      ∧ ((st'.file m).group dty).lastUpdate.getD 0
          < ((st.file m).group dty).lastUpdate.getD 0 := by
  have hmem : strUpper code0 ∈ indexCodes := hidx ▸ mk_index_mem m
  simp only [appendOne]
  rw [hm]
  simp only [Bool.false_and, Bool.false_eq_true, if_false]
  rw [if_pos hmem, hlast]
  refine ⟨_, rfl, ?_, ?_, ?_⟩
  · simp [file_setFile, group_setLastUpdate, group_setGroup]
  · simp [file_setFile]
  · simpa [file_setFile, group_setLastUpdate, group_setGroup] using hlt

/-- Witness for C10: with the SH `DAILY` watermark at 864000 (ten days),
an unordered append of a single row at time 100 for the (lowercased) SH
index code rewinds both watermarks to date 0. -/
theorem C10_witness :
    ∃ st', appendOne stHigh DataType.DAILY "sh000001" [⟨100, 5⟩] false ⟨0, 0⟩
        = some (st', ⟨1, 1⟩)
      ∧ ((st'.file Market.SH).group DataType.DAILY).lastUpdate = some (dateOf 100)
      ∧ (st'.file Market.SH).lastUpdate = some (dateOf 100)
      ∧ ((st'.file Market.SH).group DataType.DAILY).lastUpdate.getD 0
          < ((stHigh.file Market.SH).group DataType.DAILY).lastUpdate.getD 0 :=
  C10_unordered_append_rewinds_watermark stHigh DataType.DAILY "sh000001" [⟨100, 5⟩]
    ⟨0, 0⟩ Market.SH ⟨100, 5⟩ (by decide) (by decide) (by decide) (by decide)

/-! ### C5: metadata advances exactly for the market's index code -/

/-- C5.  For a successful append of one code (the appended counter was
incremented), the `LAST_UPDATE` metadata is updated if and only if the
uppercased code is its market's index code: in that case the group and
the root metadata are both set to the date of the time of the last row
of the kept (written) set — not of the original input — and for any
other code every `LAST_UPDATE` attribute of the store (root and group,
every market) is left unchanged. -/
theorem C5_metadata_updated_iff_index_code
    (st : QuoteHD5) (dty : DataType) (code0 : String) (data : List Row)
    (checkorder : Bool) (cnt : AppendCount) (m : Market)
    (st' : QuoteHD5) (cnt' : AppendCount)
    (hm : marketOf ((strUpper code0).take 2) = some m)
    (happ : appendOne st dty code0 data checkorder cnt = some (st', cnt'))
    (hsucc : cnt'.appended = cnt.appended + 1) :
    (strUpper code0 = MK_INDEX m →
      ∃ lastRow, (keptRows st dty m data checkorder).getLast? = some lastRow
        ∧ ((st'.file m).group dty).lastUpdate = some (dateOf lastRow.time)
        ∧ (st'.file m).lastUpdate = some (dateOf lastRow.time))
    ∧ (strUpper code0 ≠ MK_INDEX m → metaEq st' st) := by
  obtain ⟨-, -, hcase⟩ :=
    appendOne_inv st dty code0 data checkorder cnt m st' cnt' hm happ hsucc
  rcases hcase with ⟨lastRow, hlast, hidx, hst⟩ | ⟨hnidx, hst⟩
  · constructor
    · intro _
      refine ⟨lastRow, hlast, ?_, ?_⟩
      · rw [hst]
        simp [file_setFile, group_setLastUpdate, group_setGroup]
      · rw [hst]
        simp [file_setFile]
    · intro hne
      exact absurd (index_code_market (strUpper code0) m hm hidx) hne
  · constructor
    · intro hidx
      exact absurd (hidx ▸ mk_index_mem m) hnidx
    · intro _
      rw [hst]
      constructor
      · intro m'
        by_cases hmm : m' = m
        · subst hmm
          simp [file_setFile, lastUpdate_setGroup]
        · simp [file_setFile, hmm]
      · intro m' k
        by_cases hmm : m' = m
        · subst hmm
          by_cases hk : k = dty
          · subst hk
            simp [file_setFile, group_setGroup, lastUpdate_appendTable]
          · simp [file_setFile, group_setGroup, hk]
        · simp [file_setFile, hmm]

/-- Witness for C5: appending one row at time 100 for the SH index code
into an empty store succeeds, and both the `DAILY` group metadata and
the SH root metadata end at the date of the kept set's last row. -/
theorem C5_witness :
    ∃ st' cnt', appendOne stEmpty DataType.DAILY "SH000001" [⟨100, 0⟩] true ⟨0, 0⟩
        = some (st', cnt')
      ∧ ((strUpper "SH000001" = MK_INDEX Market.SH →
            ∃ lastRow,
              (keptRows stEmpty DataType.DAILY Market.SH [⟨100, 0⟩] true).getLast?
                = some lastRow
              ∧ ((st'.file Market.SH).group DataType.DAILY).lastUpdate
                  = some (dateOf lastRow.time)
              ∧ (st'.file Market.SH).lastUpdate = some (dateOf lastRow.time))
          ∧ (strUpper "SH000001" ≠ MK_INDEX Market.SH → metaEq st' stEmpty)) := by
  refine ⟨_, _, rfl, ?_⟩
  exact C5_metadata_updated_iff_index_code stEmpty DataType.DAILY "SH000001" [⟨100, 0⟩]
    true ⟨0, 0⟩ Market.SH _ _ (by decide) rfl rfl

/-! ### C2: repeated order-checked appends are not idempotent -/

/-- An order-checked append whose filter leaves at least one row always
completes and increments the appended counter. -/
theorem appendOne_appends_of_filter_ne_nil
    (st : QuoteHD5) (dty : DataType) (code0 : String) (data : List Row)
    (cnt : AppendCount) (m : Market)
    (hm : marketOf ((strUpper code0).take 2) = some m)
    (hne : data.filter
        (fun r => decide ((((st.file m).group dty).lastUpdate.getD 0) ≤ r.time)) ≠ []) :
    ∃ st', appendOne st dty code0 data true cnt
        = some (st', ⟨cnt.total + 1, cnt.appended + 1⟩) := by
  simp only [appendOne]
  rw [hm]
  simp only [Bool.true_and, if_true]
  rw [if_neg (by simpa [List.isEmpty_iff] using hne)]
  by_cases hidx : strUpper code0 ∈ indexCodes
  · rw [if_pos hidx]
    cases hlast : (data.filter
        (fun r => decide ((((st.file m).group dty).lastUpdate.getD 0) ≤ r.time))).getLast? with
    | none => exact absurd (List.getLast?_eq_none_iff.mp hlast) hne
    | some lastRow => exact ⟨_, rfl⟩
  · rw [if_neg hidx]
    exact ⟨_, rfl⟩

/-- Counterexample to C2 as stated: appending the batch `[⟨100, 0⟩]` for
the non-index code `SH600000` twice with order checking appends the row
both times — the second call increments the appended tally to 2 and the
table ends with the row duplicated, where the claim predicts zero rows
appended on the second call. -/
theorem C2_counterexample :
    ((appendOne stEmpty DataType.DAILY "SH600000" [⟨100, 0⟩] true ⟨0, 0⟩).bind
        (fun p => appendOne p.1 DataType.DAILY "SH600000" [⟨100, 0⟩] true p.2)).map
        (fun p => (p.2.appended,
          ((p.1.file Market.SH).group DataType.DAILY).getTable "SH600000"))
      = some (2, some [⟨100, 0⟩, ⟨100, 0⟩])
    ∧ (2 : Nat) ≠ 0 + 1 :=
  ⟨by decide, by decide⟩

/-- C2 amended.  Re-appending the same batch with order checking is not
idempotent: whenever a first order-checked append of `data` for a code
actually appended rows, immediately repeating the very same call appends
rows again.  For a non-index code the cutoff never advances, so the
whole batch is re-appended; for an index code the cutoff advances only
to the date of the last written row, which that row itself still passes
(the filter boundary is inclusive). -/
theorem C2_amended_second_append_also_appends
    (st : QuoteHD5) (dty : DataType) (code0 : String) (data : List Row)
    (cnt : AppendCount) (m : Market) (st1 : QuoteHD5) (cnt1 : AppendCount)
    (hm : marketOf ((strUpper code0).take 2) = some m)
    (h1 : appendOne st dty code0 data true cnt = some (st1, cnt1))
    (hw : cnt1.appended = cnt.appended + 1) :
    ∃ st2, appendOne st1 dty code0 data true cnt1
        = some (st2, ⟨cnt1.total + 1, cnt1.appended + 1⟩) := by
  obtain ⟨hk, -, hcase⟩ := appendOne_inv st dty code0 data true cnt m st1 cnt1 hm h1 hw
  have hk1 : data.filter
      (fun r => decide ((((st.file m).group dty).lastUpdate.getD 0) ≤ r.time)) ≠ [] := by
    simpa [keptRows] using hk rfl
  apply appendOne_appends_of_filter_ne_nil st1 dty code0 data cnt1 m hm
  rcases hcase with ⟨lastRow, hlast, -, hst⟩ | ⟨-, hst⟩
  · have hcut : ((st1.file m).group dty).lastUpdate = some (dateOf lastRow.time) := by
      rw [hst]
      simp [file_setFile, group_setLastUpdate, group_setGroup]
    rw [hcut]
    have hmemk : lastRow ∈ keptRows st dty m data true :=
      List.mem_of_getLast?_eq_some hlast
    have hmemd : lastRow ∈ data := by
      have := hmemk
      simp only [keptRows, if_pos rfl] at this
      exact (List.mem_filter.mp this).1
    apply List.ne_nil_of_mem (a := lastRow)
    apply List.mem_filter.mpr
    exact ⟨hmemd, by simpa using dateOf_le lastRow.time⟩
  · have hcut : ((st1.file m).group dty).lastUpdate
        = ((st.file m).group dty).lastUpdate := by
      rw [hst]
      simp [file_setFile, group_setGroup, lastUpdate_appendTable]
    rw [hcut]
    exact hk1

/-- Witness for the amended C2: after a first append of `[⟨100, 0⟩]` for
`SH600000` into an empty store, the identical second call also appends,
reporting tally `(2, 2)`. -/
theorem C2_amended_witness :
    ∃ st2, appendOne
        (stEmpty.setFile Market.SH ((stEmpty.file Market.SH).setGroup DataType.DAILY
          (((stEmpty.file Market.SH).group DataType.DAILY).appendTable "SH600000"
            [⟨100, 0⟩])))
        DataType.DAILY "SH600000" [⟨100, 0⟩] true ⟨1, 1⟩ = some (st2, ⟨2, 2⟩) :=
  C2_amended_second_append_also_appends stEmpty DataType.DAILY "SH600000" [⟨100, 0⟩]
    ⟨0, 0⟩ Market.SH
    (stEmpty.setFile Market.SH ((stEmpty.file Market.SH).setGroup DataType.DAILY
      (((stEmpty.file Market.SH).group DataType.DAILY).appendTable "SH600000" [⟨100, 0⟩])))
    ⟨1, 1⟩ (by decide) (by decide) rfl

/-! ### C4: when the Sort Engine preserves a table -/

theorem find?_map_snd (f : List Row → List Row) (code : String)
    (l : List (String × List Row)) :
    (l.map fun p => (p.1, f p.2)).find? (fun p => p.1 == code)
      = (l.find? (fun p => p.1 == code)).map (fun p => (p.1, f p.2)) := by
  have hfun : ((fun p : String × List Row => p.1 == code)
        ∘ fun p : String × List Row => (p.1, f p.2))
      = fun p : String × List Row => p.1 == code := rfl
  rw [List.find?_map, hfun]

theorem getTable_sortGroup (g : GroupState) (code : String) :
    (sortGroup g).getTable code = (g.getTable code).map modifyRowsSorted := by
  unfold sortGroup GroupState.getTable
  rw [find?_map_snd]
  cases g.tables.find? (fun p => p.1 == code) <;> rfl

/-- Counterexample to C4 as stated: the table `[⟨100, 5⟩, ⟨100, 3⟩]` is
non-decreasing in time, yet `sort_hd5` does not leave it byte-for-byte
unchanged — the sort reorders the two equal-time rows by their
remaining columns (and the `stop = -1` write-back then keeps the old
final row), so the table ends as `[⟨100, 3⟩, ⟨100, 3⟩]`. -/
theorem C4_counterexample :
    List.Sorted (fun a b : Row => a.time ≤ b.time) [⟨100, 5⟩, ⟨100, 3⟩]
    ∧ ((stTieBreak.file Market.SH).group DataType.DAILY).getTable "SH600000"
        = some [⟨100, 5⟩, ⟨100, 3⟩]
    ∧ (((sort_hd5 stTieBreak).file Market.SH).group DataType.DAILY).getTable "SH600000"
        = some [⟨100, 3⟩, ⟨100, 3⟩]
    ∧ (some [(⟨100, 3⟩ : Row), ⟨100, 3⟩] ≠ some [(⟨100, 5⟩ : Row), ⟨100, 3⟩]) :=
  ⟨by decide, by decide, by decide, by decide⟩

/-- C4 amended.  For every table whose rows are already sorted by the
comparison key the in-memory sort actually uses — time first, ties
broken by the remaining columns in dtype order — `sort_hd5` leaves that
table's row sequence byte-for-byte unchanged.  Being non-decreasing in
time alone does not suffice: equal-time rows whose remaining columns
are out of dtype order are reordered. -/
theorem C4_amended_sort_preserves_fully_sorted_table
    (st : QuoteHD5) (m : Market) (k : DataType) (code : String) (rows : List Row)
    (hg : ((st.file m).group k).getTable code = some rows)
    (hs : List.Sorted rowLe rows) :
    (((sort_hd5 st).file m).group k).getTable code = some rows := by
  have hfile : (sort_hd5 st).file m = sortFile (st.file m) := by cases m <;> rfl
  have hgrp : (sortFile (st.file m)).group k = sortGroup ((st.file m).group k) := by
    cases k <;> rfl
  rw [hfile, hgrp, getTable_sortGroup, hg]
  have hsort : sortRows rows = rows := hs.insertionSort_eq
  have hmod : modifyRowsSorted rows = rows := by
    unfold modifyRowsSorted
    rw [hsort, List.take_append_drop]
  simp [hmod]

/-- Witness for the amended C4: sorting the store whose SH `MIN5` table
for the SH index code is already sorted by the full key (including a
duplicated time whose payloads are in order) returns the very same row
sequence. -/
theorem C4_amended_witness :
    (((sort_hd5 stSorted).file Market.SH).group DataType.MIN5).getTable "SH000001"
      = some [⟨0, 1⟩, ⟨100, 2⟩, ⟨100, 3⟩, ⟨86400, 4⟩] :=
  C4_amended_sort_preserves_fully_sorted_table stSorted Market.SH DataType.MIN5 "SH000001"
    [⟨0, 1⟩, ⟨100, 2⟩, ⟨100, 3⟩, ⟨86400, 4⟩] (by decide) (by decide)

/-! ### C9: the missing-table path of the gap detector raises -/

/-- C9 (code bug).  The claim — and the `return None` of the handler
itself — say a missing `MIN5` table yields the typed no-table result
without raising, but evaluating the model of the code at such an input
shows the missing-table path ends in the uncaught `ValueError` from the
malformed format string of `log.debug('code % not available in DB'
%code)` on line 198, reached before `return None`.  The second half of
the claim does hold: on a table with full trading-day coverage the
detector returns the empty missing-days sequence, not an error. -/
theorem C9_missing_table_raises_value_error :
    get_lostdate stSorted (fun a b => [a, b]) (some "SH600000") = GapResult.valueError
    ∧ get_lostdate stSorted (fun a b => [a, b]) (some "SH000001") = GapResult.lost [] :=
  ⟨by decide, by decide⟩

/-! ### C3: what the extract tally actually counts -/

theorem extractCopy_count (src dst : MarketFile) (code : String) (c : Nat) :
    (extractCopy src dst code c).2
      = c + (copyKinds.filter (fun k => ((src.group k).getTable code).isSome)).length := by
  unfold extractCopy copyKinds
  cases h1 : (src.group DataType.DAILY).getTable code <;>
    cases h2 : (src.group DataType.MIN5).getTable code <;>
      cases h3 : (src.group DataType.SPLITS).getTable code <;>
        simp [h1, h2, h3]

theorem extractLoop_counts (st : QuoteHD5) :
    ∀ (codes : List String) (dst : MarketFile) (c0 c1 : Nat),
      (extractLoop st dst codes (c0, c1)).2
        = (c0 + (codes.filter (fun c => validExtractCode c)).length,
           c1 + ((codes.filter (fun c => validExtractCode c)).map (copiesFor st)).sum)
  | [], dst, c0, c1 => by simp [extractLoop]
  | c :: rest, dst, c0, c1 => by
    cases hm : marketOf ((strUpper c).take 2) with
    | none =>
      have hval : validExtractCode c = false := by
        simp [validExtractCode, hm]
      simp only [extractLoop, extractOne]
      rw [hm]
      dsimp only
      rw [extractLoop_counts st rest dst c0 c1]
      simp [List.filter_cons, hval]
    | some m =>
      by_cases hlen : (strUpper c).length = 8
      · have hval : validExtractCode c = true := by
          simp [validExtractCode, hm, hlen]
        have hcopies : (extractCopy (st.file m) dst (strUpper c) c1).2
            = c1 + copiesFor st c := by
          rw [extractCopy_count]
          unfold copiesFor
          rw [hm]
        simp only [extractLoop, extractOne]
        rw [hm]
        dsimp only
        rw [if_neg (by simp [hlen])]
        rw [extractLoop_counts st rest _ _ _]
        rw [hcopies]
        simp only [List.filter_cons, hval, if_true, List.length_cons, List.map_cons,
          List.sum_cons, Prod.mk.injEq]
        constructor <;> omega
      · have hval : validExtractCode c = false := by
          simp [validExtractCode, hlen]
        simp only [extractLoop, extractOne]
        rw [hm]
        dsimp only
        rw [if_pos hlen]
        rw [extractLoop_counts st rest dst c0 c1]
        simp [List.filter_cons, hval]

/-- Counterexample to C3 as stated: extracting the single code
`SH600000`, which exists in two groups of the source (`DAILY` and
`MIN5`), reports the tally `(count[0], count[1]) = (1, 2)` — the success
figure is 2, the number of `(code, group)` table copies, while the
number of codes successfully copied at least once is 1. -/
theorem C3_counterexample :
    (extract stC3 ["SH600000"]).map (fun p => p.2) = some (1, 2)
    ∧ ((["SH600000"] : List String).filter
        (fun c => validExtractCode c && decide (0 < copiesFor stC3 c))).length = 1
    ∧ (2 : Nat) ≠ 1 :=
  ⟨by decide, by decide, by decide⟩

/-- C3 amended.  For every extract call with a non-empty code list, the
reported tally is (number of valid codes attempted, number of successful
per-`(code, group)` table copies): invalid codes — unknown market tag or
length other than 8 — are excluded from the attempted count, and each
valid code contributes one copy per source group that holds its table,
so the success figure counts copies, not distinct codes. -/
theorem C3_amended_tally_counts_copies (st : QuoteHD5) (codes : List String)
    (h : codes ≠ []) :
    (extract st codes).map (fun p => p.2)
      = some ((codes.filter (fun c => validExtractCode c)).length,
          ((codes.filter (fun c => validExtractCode c)).map (copiesFor st)).sum) := by
  unfold extract
  rw [if_neg (Nat.not_lt.mpr (List.length_pos.mpr h))]
  show some ((extractLoop st create_hd5 codes (0, 0)).2) = _
  rw [extractLoop_counts st codes create_hd5 0 0]
  simp only [Nat.zero_add]

/-- Witness for the amended C3 (Scenario C variant): extracting
`["SH600000", "XX123456"]` reports one valid code attempted and, with
`SH600000` present in two source groups, two table copies. -/
theorem C3_amended_witness :
    (extract stC3 ["SH600000", "XX123456"]).map (fun p => p.2)
      = some (((["SH600000", "XX123456"] : List String).filter
            (fun c => validExtractCode c)).length,
          ((((["SH600000", "XX123456"] : List String)).filter
            (fun c => validExtractCode c)).map (copiesFor stC3)).sum) :=
  C3_amended_tally_counts_copies stC3 ["SH600000", "XX123456"] (by decide)

end QuoteHd5Model
